import Mathlib

/-
Verification of the levis genetic-algorithm library.

Shallow embedding of the operator library (crossover.py, ero.py),
the selection strategies and elitism (selection.py, behavior.py),
and the engine loop (base.py), with theorems checking the stated
contracts against the embedded code.

Conventions: chromosomes are lists over Nat (list/permutation encoding)
or Nat bitfields (binary encoding); fitness scores are rationals;
Python exceptions are modelled with Except String.
-/

namespace Levis

/-! ## crossover.ordered (OX) -/

/-- One step of the loop inside `fill` in `crossover.ordered`: append the
value to the child unless the child already contains it. -/
def fillStep (c : List Nat) (v : Nat) : List Nat :=
  if v ∈ c then c else c ++ [v]

/-- Embeds the inner `fill(child, parent)` of `crossover.ordered`.  In the
source the loop reads the enclosing variable `parent2`, not the `parent`
argument, so the `parent` argument is dead; the embedding keeps it (unused)
to mirror the source. -/
def fill (child : List Nat) (_parent parent2 : List Nat) : List Nat :=
  parent2.foldl fillStep child

/-- Embeds `crossover.ordered(parent1, parent2, point)` with the cut point
given explicitly (the source draws a random point when it is `None`). -/
def ordered (parent1 parent2 : List Nat) (point : Nat) : List (List Nat) :=
  let child1 := parent1.take point
  let child2 := parent2.take point
  [fill child1 parent2 parent2, fill child2 parent1 parent2]

/-! ## crossover.partially_matched (PMX) -/

/-- Embeds the inner `pmx(parent1, parent2)` of `crossover.partially_matched`
with the two cut loci `l1 ≤ l2` given explicitly (the source draws them from
triangular distributions and swaps them into order).  `parent1.indexOf` models
Python `parent1.index` (first occurrence; the Python call raises ValueError
when the item is absent, which cannot happen for parents over one universe —
`indexOf` then returns the length and `List.set` ignores the write).
`List.zip` models the `enumerate(tofind)` loop reading `tomatch[k]`, which in
Python raises IndexError when `tomatch` is shorter; for duplicate-free
parents over the same universe both lists have equal length. -/
def pmx (l1 l2 : Nat) (parent1 parent2 : List Nat) : List Nat :=
  let matching := (parent2.drop l1).take (l2 - l1)
  let displaced := (parent1.drop l1).take (l2 - l1)
  let child := parent1.take l1 ++ matching ++ parent1.drop l2
  let tofind := displaced.filter (fun item => decide (item ∉ matching))
  let tomatch := matching.filter (fun item => decide (item ∉ displaced))
  (tofind.zip tomatch).foldl
    (fun ch vs => ch.set (parent1.indexOf vs.2) vs.1) child

/-- Embeds `crossover.partially_matched(parent1, parent2)` with explicit
loci. -/
def partially_matched (l1 l2 : Nat) (parent1 parent2 : List Nat) :
    List (List Nat) :=
  [pmx l1 l2 parent1 parent2, pmx l1 l2 parent2 parent1]

/-! ## ero.py: edge recombination -/

/-- The message of the Python NameError raised by `ero.recombine`. -/
def eroNameError : String := "NameError: name neighbors is not defined"

/-- Embeds `ero.recombine(parent1, parent2)`.  The source reads the free
variable `neighbors` (in `for s in neighbors.values()`), but that name is
bound nowhere in the module — `adjacency_matrix` is never called — so the
call raises NameError on the first loop iteration whenever `parent1` is
nonempty, and `node = parent1[0]` raises IndexError when `parent1` is empty.
The function can never return a chromosome. -/
def recombine (parent1 _parent2 : List Nat) : Except String (List Nat) :=
  match parent1 with
  | [] => Except.error "IndexError: list index out of range"
  | _ :: _ => Except.error eroNameError

/-- Embeds the `left` index computation in `ero.adjacency_matrix`:
`k - 1` when `k > 0`, else `end`. -/
def leftIdx (endi k : Nat) : Nat := if 0 < k then k - 1 else endi

/-- Embeds the `right` index computation in `ero.adjacency_matrix`:
`k` when `k < end`, else `0` (the source uses `k` where the element to the
right sits at `k + 1`). -/
def rightIdx (endi k : Nat) : Nat := if k < endi then k else 0

/-- Embeds `ero.adjacency_matrix(parent1, parent2)` as the map from an
element to its computed neighbor set: for each parent and each position `k`
holding the element, the parent entries at `leftIdx` and `rightIdx` are
added.  Python stores this as a dict of sets keyed by the occurring
elements; elements occurring in neither parent map to the empty set here
where the Python dict has no key. -/
def adjacency_matrix (parent1 parent2 : List Nat) (v : Nat) : Finset Nat :=
  let endi := parent1.length - 1
  let fromParent (p : List Nat) : Finset Nat :=
    (Finset.range p.length).biUnion (fun k =>
      if p.getD k 0 = v then
        {p.getD (leftIdx endi k) 0, p.getD (rightIdx endi k) 0}
      else ∅)
  fromParent parent1 ∪ fromParent parent2

/-! ## Elitism: ElitistGA.fitness, two variants in the source -/

/-- Embeds one `fitness` call of `selection.ElitistGA` at the elite-set
level: the score of the chromosome is the argument (the call to the
superclass `fitness` computes it in the source); the returned list is the
updated `self.elites`.  The position scan `for i in range(...): if score >
elites[i][0]: pos = i; break` stops at the first hit, embedded with
`findIdx?`; insertion at `pos` is `elites[0:pos] + [add] + elites[pos:]`,
and the final bound check drops the last entry (`elites[0:-1]`). -/
def elitistFitnessSel (numElites : Nat) (elites : List (ℚ × Nat))
    (score : ℚ) (chromosome : Nat) : List (ℚ × Nat) :=
  if 0 < numElites then
    let sentry : ℚ := match elites.getLast? with
      | some t => t.1
      | none => 0
    if score > sentry ∨ elites.length < numElites then
      let add := (score, chromosome)
      let pos := elites.findIdx? (fun t => decide (score > t.1))
      let inserted :=
        match pos with
        | none => elites ++ [add]
        | some 0 => add :: elites
        | some (p + 1) => elites.take (p + 1) ++ [add] ++ elites.drop (p + 1)
      if numElites < inserted.length then inserted.dropLast else inserted
    else elites
  else elites

/-- The final value of `pos` after the scan in `behavior.ElitistGA.fitness`:
that loop has no `break`, so `pos` ends at the last index whose kept score
is below the new score (or `None` when there is none). -/
def lastIdxBelow (score : ℚ) (elites : List (ℚ × Nat)) : Option Nat :=
  (List.range elites.length).foldl
    (fun acc i => if score > (elites.getD i (0, 0)).1 then some i else acc) none

/-- Embeds one `fitness` call of `behavior.ElitistGA` (the second variant of
the class in the source).  It differs from `elitistFitnessSel` in two
places: the position scan has no `break` (`lastIdxBelow`), and the
mid-list insertion slice is `elites[0:pos] + [add] + elites[pos:-1]`,
discarding the last entry even when the set is below capacity. -/
def elitistFitnessBeh (numElites : Nat) (elites : List (ℚ × Nat))
    (score : ℚ) (chromosome : Nat) : List (ℚ × Nat) :=
  if 0 < numElites then
    let sentry : ℚ := match elites.getLast? with
      | some t => t.1
      | none => 0
    if score > sentry ∨ elites.length < numElites then
      let add := (score, chromosome)
      let pos := lastIdxBelow score elites
      let inserted :=
        match pos with
        | none => elites ++ [add]
        | some 0 => add :: elites
        | some (p + 1) =>
            elites.take (p + 1) ++ [add] ++ (elites.drop (p + 1)).dropLast
      if numElites < inserted.length then inserted.dropLast else inserted
    else elites
  else elites

/-- Feed a list of scores one at a time into an empty elite set, scoring
chromosome `i` on the `i`-th call. -/
def feedScores (step : List (ℚ × Nat) → ℚ → Nat → List (ℚ × Nat))
    (scores : List ℚ) : List (ℚ × Nat) :=
  (scores.zip (List.range scores.length)).foldl (fun e t => step e t.1 t.2) []

/-! ## Fitness-proportionate selection (selection.py) -/

/-- The message of the exception raised by `ProportionateGA.select`. -/
def selectError : String :=
  "Failed to select a parent. Begin troubleshooting by checking your fitness function."

/-- Embeds `ProportionateGA.proportion_population`, which computes
`self.scored` from the ranked `[(chromosome, score)]` list: `shares` is the
sum of all scores, and a running `tally` of `score / shares` is recorded for
each positive-score entry; zero-score entries are skipped. -/
def proportion_population (ranked : List (Nat × ℚ)) : List (Nat × ℚ × ℚ) :=
  let shares : ℚ := (ranked.map (fun t => t.2)).sum
  (ranked.foldl
    (fun (acc : List (Nat × ℚ × ℚ) × ℚ) t =>
      if 0 < t.2 then
        let tally := acc.2 + t.2 / shares
        (acc.1 ++ [(t.1, t.2, tally)], tally)
      else acc)
    ([], 0)).1

/-- Embeds `ProportionateGA.select` given the drawn uniform number `u`
(`self.random.random()` in the source): return the first entry of
`self.scored` whose cumulative share exceeds `u`, else raise. -/
def select (scored : List (Nat × ℚ × ℚ)) (u : ℚ) : Except String Nat :=
  match scored.find? (fun t => decide (u < t.2.2)) with
  | some t => Except.ok t.1
  | none => Except.error selectError

/-- `ProportionateGA.select` with its state (`self.scored`) passed and
returned explicitly: the method only reads the scored cache, so the
state component of the result is the input state. -/
def selectS (scored : List (Nat × ℚ × ℚ)) (u : ℚ) :
    Except String Nat × List (Nat × ℚ × ℚ) :=
  (select scored u, scored)

/-- Embeds `ScalingProportionateGA.proportion_population`.  `worst` is
Python `min(scores)` over the positive scores (the source raises ValueError
when there is none; that branch is modelled as 0 and is unreachable for the
populations the claims quantify over); `shares` sums `score - worst` over
*all* ranked entries; the recorded share of each positive entry is the
*raw* `score / shares` — the source line is `share = tupl[1] / shares`. -/
def proportion_population_scaling (ranked : List (Nat × ℚ)) :
    List (Nat × ℚ × ℚ) :=
  let scores := (ranked.filter (fun t => decide (0 < t.2))).map (fun t => t.2)
  let worst : ℚ := match scores with
    | [] => 0
    | s :: rest => rest.foldl min s
  let shares : ℚ := (ranked.map (fun t => t.2 - worst)).sum
  (ranked.foldl
    (fun (acc : List (Nat × ℚ × ℚ) × ℚ) t =>
      if 0 < t.2 then
        let tally := acc.2 + t.2 / shares
        (acc.1 ++ [(t.1, t.2, tally)], tally)
      else acc)
    ([], 0)).1

/-- Modelled from the spec (for comparison with
`proportion_population_scaling`): scaled proportionate selection where each
positive-score chromosome's weight is `(score - worst) / shares` with
`worst` the minimum positive score and `shares` the sum of the scaled
values of the positive-score entries. -/
def scaling_shares_spec (ranked : List (Nat × ℚ)) : List (Nat × ℚ × ℚ) :=
  let positives := ranked.filter (fun t => decide (0 < t.2))
  let worst : ℚ := match positives.map (fun t => t.2) with
    | [] => 0
    | s :: rest => rest.foldl min s
  let shares : ℚ := (positives.map (fun t => t.2 - worst)).sum
  (ranked.foldl
    (fun (acc : List (Nat × ℚ × ℚ) × ℚ) t =>
      if 0 < t.2 then
        let tally := acc.2 + (t.2 - worst) / shares
        (acc.1 ++ [(t.1, t.2, tally)], tally)
      else acc)
    ([], 0)).1

/-! ## behavior.FinishWhenSlowGA.is_finished -/

/-- Embeds `FinishWhenSlowGA.is_finished`.  The Python negative index
`best_scores[-lookback]` is entry `length - lookback` (entry 0 when
`lookback = 0`) and `best_scores[-1]` is the last entry.  When the lookback
entry is zero Python raises ZeroDivisionError; division is total here
(giving 0), a branch no claim exercises. -/
def is_finished_slow (threshold : ℚ) (lookback : Nat) (best_scores : List ℚ)
    (iteration max_iterations : Nat) : Bool :=
  let exceeded_duration := decide (iteration ≥ max_iterations)
  if best_scores.length > lookback then
    let first := best_scores.getD
      (if lookback = 0 then 0 else best_scores.length - lookback) 0
    let last := best_scores.getLastD 0
    let gain := (last - first) / first
    decide (gain ≤ threshold) || exceeded_duration
  else exceeded_duration

/-! ## crossover.uniform_bin -/

/-- Embeds the loop of `crossover.uniform_bin`: at each locus the mask bit
is taken from the current `parent1`/`parent2` and or-ed into the children,
and then the two parents are swapped.  The source contains no call into
`random`, so the parent supplying each bit alternates deterministically
with the locus. -/
def uniformBinLoop : Nat → Nat → Nat → Nat → Nat → Nat → Nat × Nat
  | 0, _, _, _, c1, c2 => (c1, c2)
  | n + 1, locus, p1, p2, c1, c2 =>
      uniformBinLoop n (locus + 1) p2 p1
        (Nat.lor (Nat.land (2 ^ locus) p1) c1)
        (Nat.lor (Nat.land (2 ^ locus) p2) c2)

/-- Embeds `crossover.uniform_bin(parent1, parent2, bits)`. -/
def uniform_bin (parent1 parent2 bits : Nat) : List Nat :=
  let r := uniformBinLoop bits 0 parent1 parent2 0 0
  [r.1, r.2]

/-! ## base.GeneticAlgorithm: the engine loop -/

/-- Embeds the branch structure of one iteration of
`GeneticAlgorithm.generate`: one random `ticket` selects crossover when
`ticket < crossover_prob`, mutation when
`ticket < crossover_prob + mutation_prob`, and a verbatim copy of a
selected parent otherwise — exactly one chromosome either way. -/
def generateChild (crossover_prob mutation_prob ticket : ℚ)
    (crossed mutated copied : Nat) : Nat :=
  if ticket < crossover_prob then crossed
  else if ticket < crossover_prob + mutation_prob then mutated
  else copied

/-- Embeds the `while` loop of `GeneticAlgorithm.generate`: while the next
generation is shorter than `population_size`, append the chromosome the
current iteration produces.  `child k` abstracts the chromosome produced by
the iteration that starts with `k` entries present (each iteration draws
one ticket and produces one chromosome, cf. `generateChild`). -/
def generate (population_size : Nat) (child : Nat → Nat)
    (next_generation : List Nat) : List Nat :=
  if next_generation.length < population_size then
    generate population_size child
      (next_generation ++ [child next_generation.length])
  else next_generation
termination_by population_size - next_generation.length
decreasing_by simp; omega

/-- Embeds `ElitistGA.pre_generate`: when elites exist, their chromosomes
are appended unchanged to `self.next_generation`. -/
def pre_generate_elitist (elites : List (ℚ × Nat))
    (next_generation : List Nat) : List Nat :=
  if 0 < elites.length then next_generation ++ elites.map (fun e => e.2)
  else next_generation

/-- The population one generation installs: `pre_generate` injects the
elites into the empty next generation, `generate` fills it to
`population_size`, and `post_generate` installs it as `self.population`. -/
def nextPopulation (population_size : Nat) (elites : List (ℚ × Nat))
    (child : Nat → Nat) : List Nat :=
  generate population_size child (pre_generate_elitist elites [])

/-- Embeds `GeneticAlgorithm.__init__`: `max_iterations` defaults to 50 and
a configured value `≤ 0` is replaced by 1. -/
def initMaxIterations (configured : Option Int) : Int :=
  let m := configured.getD 50
  if m ≤ 0 then 1 else m

/-- Embeds the default `GeneticAlgorithm.is_finished`:
`self.iteration >= self.max_iterations`. -/
def is_finished (iteration : Nat) (max_iterations : Int) : Bool :=
  decide ((iteration : Int) ≥ max_iterations)

/-- The engine state the claims about `base.py` quantify over. -/
structure GAState where
  iteration : Nat
  max_iterations : Int
  population : Option (List Nat)
  next_generation : List Nat

/-- The state `GeneticAlgorithm.__init__` establishes. -/
def initState (configured : Option Int) : GAState :=
  { iteration := 0
    max_iterations := initMaxIterations configured
    population := none
    next_generation := [] }

/-- Embeds `GeneticAlgorithm.seed`: create `population_size` chromosomes
when no population exists. -/
def seedState (create : Nat → Nat) (population_size : Nat) (s : GAState) :
    GAState :=
  match s.population with
  | some _ => s
  | none => { s with population := some ((List.range population_size).map create) }

/-- Embeds one iteration of the `solve` loop (with elitism mixed in):
increment the iteration counter, run `pre_generate` and `generate`, and let
`post_generate` install the next generation and reset the buffer. -/
def solveStep (population_size : Nat) (elites : List (ℚ × Nat))
    (child : Nat → Nat) (s : GAState) : GAState :=
  let ng := generate population_size child
    (pre_generate_elitist elites s.next_generation)
  { s with iteration := s.iteration + 1, population := some ng,
           next_generation := [] }

end Levis

namespace Levis

lemma foldl_fillStep_eq (l : List Nat) (hl : l.Nodup) :
    ∀ c : List Nat, l.foldl fillStep c = c ++ l.filter (fun v => decide (v ∉ c)) := by
  induction l with
  | nil => intro c; simp
  | cons v l ih =>
    intro c
    have hv : v ∉ l := (List.nodup_cons.mp hl).1
    have hl' : l.Nodup := (List.nodup_cons.mp hl).2
    by_cases hc : v ∈ c
    · have hstep : fillStep c v = c := by simp [fillStep, hc]
      simp only [List.foldl_cons, hstep, List.filter_cons]
      rw [ih hl' c]
      simp [hc]
    · have hstep : fillStep c v = c ++ [v] := by simp [fillStep, hc]
      simp only [List.foldl_cons, hstep, List.filter_cons]
      rw [ih hl' (c ++ [v])]
      have hfilter : l.filter (fun u => decide (u ∉ c ++ [v]))
          = l.filter (fun u => decide (u ∉ c)) := by
        apply List.filter_congr
        intro u hu
        have huv : u ≠ v := fun h => hv (h ▸ hu)
        simp [List.mem_append, huv]
      rw [hfilter]
      simp [hc]

lemma filter_not_mem_take (p : List Nat) (hp : p.Nodup) (k : Nat) :
    p.filter (fun v => decide (v ∉ p.take k)) = p.drop k := by
  have hsplit := List.take_append_drop k p
  have hdisj : List.Disjoint (p.take k) (p.drop k) :=
    List.disjoint_take_drop hp (le_refl k)
  have h1 : (p.take k).filter (fun v => decide (v ∉ p.take k)) = [] := by
    simp only [List.filter_eq_nil_iff]
    intro a ha
    simp [ha]
  have h2 : (p.drop k).filter (fun v => decide (v ∉ p.take k)) = p.drop k := by
    rw [List.filter_eq_self]
    intro a ha
    have : a ∉ p.take k := fun hmem => (hdisj hmem) ha
    simp [this]
  calc p.filter (fun v => decide (v ∉ p.take k))
      = (p.take k ++ p.drop k).filter (fun v => decide (v ∉ p.take k)) := by
        rw [hsplit]
    _ = p.drop k := by rw [List.filter_append, h1, h2, List.nil_append]

lemma fill_take_self (p : List Nat) (hp : p.Nodup) (k : Nat) (q : List Nat) :
    fill (p.take k) q p = p := by
  unfold fill
  rw [foldl_fillStep_eq p hp, filter_not_mem_take p hp k, List.take_append_drop]

lemma foldl_id_of_skip {α β : Type} (g : β → α → β) :
    ∀ (l : List α) (acc : β), (∀ (acc2 : β) (t : α), t ∈ l → g acc2 t = acc2) →
      l.foldl g acc = acc := by
  intro l
  induction l with
  | nil => intro acc _; rfl
  | cons hd tl ih =>
    intro acc h
    rw [List.foldl_cons, h acc hd (List.mem_cons_self hd tl)]
    exact ih _ (fun a t ht => h a t (List.mem_cons_of_mem hd ht))

lemma select_first (scored : List (Nat × ℚ × ℚ)) (u : ℚ) :
    ∀ (i : Nat) (hi : i < scored.length), u < (scored.get ⟨i, hi⟩).2.2 →
      (∀ (j : Nat) (hj : j < i), (scored.get ⟨j, lt_trans hj hi⟩).2.2 ≤ u) →
      select scored u = Except.ok (scored.get ⟨i, hi⟩).1 := by
  induction scored with
  | nil => intro i hi; exact absurd hi (Nat.not_lt_zero i)
  | cons hd tl ih =>
    intro i hi hu hfirst
    cases i with
    | zero =>
      simp only [List.get] at hu ⊢
      simp [select, List.find?_cons, hu]
    | succ n =>
      have hhd : hd.2.2 ≤ u := by
        have := hfirst 0 (Nat.succ_pos n)
        simpa using this
      have hd_false : decide (u < hd.2.2) = false := by
        simp [not_lt.mpr hhd]
      have htl := ih n (Nat.lt_of_succ_lt_succ hi)
        (by simpa using hu)
        (by
          intro j hj
          have := hfirst (j + 1) (Nat.succ_lt_succ hj)
          simpa using this)
      simp only [select, List.find?_cons, hd_false] at htl ⊢
      simpa using htl

lemma select_none (scored : List (Nat × ℚ × ℚ)) (u : ℚ)
    (h : ∀ t ∈ scored, t.2.2 ≤ u) :
    select scored u = Except.error selectError := by
  have : scored.find? (fun t => decide (u < t.2.2)) = none := by
    rw [List.find?_eq_none]
    intro t ht
    simp [not_lt.mpr (h t ht)]
  simp [select, this]

lemma proportion_all_zero (ranked : List (Nat × ℚ))
    (h : ∀ t ∈ ranked, t.2 = 0) :
    proportion_population ranked = [] := by
  unfold proportion_population
  dsimp only
  rw [foldl_id_of_skip _ ranked ([], 0) ?_]
  · intro acc2 t ht
    have ht0 := h t ht
    simp [ht0]

lemma generate_length (n : Nat) (c : Nat → Nat) :
    ∀ (k : Nat) (l : List Nat), n - l.length = k → l.length ≤ n →
      (generate n c l).length = n := by
  intro k
  induction k with
  | zero =>
    intro l hk hl
    have hnot : ¬ l.length < n := by omega
    rw [generate, if_neg hnot]
    omega
  | succ m ih =>
    intro l hk hl
    have hlt : l.length < n := by omega
    rw [generate, if_pos hlt]
    exact ih (l ++ [c l.length]) (by simp; omega) (by simp; omega)

lemma generate_extends (n : Nat) (c : Nat → Nat) :
    ∀ (k : Nat) (l : List Nat), n - l.length = k →
      ∃ ext, generate n c l = l ++ ext := by
  intro k
  induction k with
  | zero =>
    intro l hk
    by_cases hlt : l.length < n
    · exfalso; omega
    · exact ⟨[], by rw [generate, if_neg hlt, List.append_nil]⟩
  | succ m ih =>
    intro l hk
    by_cases hlt : l.length < n
    · obtain ⟨ext, hext⟩ := ih (l ++ [c l.length]) (by simp; omega)
      exact ⟨[c l.length] ++ ext,
        by rw [generate, if_pos hlt, hext, List.append_assoc]⟩
    · exact ⟨[], by rw [generate, if_neg hlt, List.append_nil]⟩

lemma pre_generate_elitist_nil (elites : List (ℚ × Nat)) :
    pre_generate_elitist elites [] = elites.map (fun e => e.2) := by
  unfold pre_generate_elitist
  by_cases h : 0 < elites.length
  · rw [if_pos h, List.nil_append]
  · rw [if_neg h]
    have : elites = [] := List.length_eq_zero.mp (by omega)
    simp [this]

end Levis

/-- C9: in `crossover.ordered`, the inner `fill` always draws from `parent2`
(its `parent` argument is ignored), so for any duplicate-free `parent2` and
any cut point the second child equals `parent2` itself. -/
theorem ordered_second_child_eq_parent2 (parent1 parent2 : List Nat) (point : Nat)
    (h2 : parent2.Nodup) :
    (Levis.ordered parent1 parent2 point).getD 1 [] = parent2 := by
  unfold Levis.ordered
  simp only [List.getD, List.getElem?_eq_getElem, List.get]
  exact Levis.fill_take_self parent2 h2 point parent1

/-- Witness for C9 at a concrete input. -/
theorem ordered_second_child_eq_parent2_witness :
    (Levis.ordered [0, 1, 2, 3] [2, 0, 3, 1] 2).getD 1 [] = [2, 0, 3, 1] :=
  ordered_second_child_eq_parent2 [0, 1, 2, 3] [2, 0, 3, 1] 2 (by decide)

/-- C1: the claim fails on the code because of `ero.recombine`: the body
reads the unbound name `neighbors` (the `adjacency_matrix` call is missing),
so ERO raises NameError for every nonempty parent pair (and IndexError for
empty ones) and never returns a child — the repository's own `test_ero`
crashes.  OX and PMX do return children with the parents' element multiset,
checked here on concrete permutation parents. -/
theorem permutation_closure_ero_crashes :
    Levis.recombine [0, 1, 2, 3] [1, 3, 0, 2] = Except.error Levis.eroNameError ∧
    (∀ p1 p2 : List Nat, ∃ e, Levis.recombine p1 p2 = Except.error e) ∧
    ((Levis.ordered [0, 1, 2, 3] [2, 0, 3, 1] 2).all fun ch =>
      decide ((ch : Multiset Nat) = ({0, 1, 2, 3} : Multiset Nat))) = true ∧
    ((Levis.partially_matched 1 3 [0, 1, 2, 3] [2, 0, 3, 1]).all fun ch =>
      decide ((ch : Multiset Nat) = ({0, 1, 2, 3} : Multiset Nat))) = true := by
  refine ⟨rfl, ?_, by decide, by decide⟩
  intro p1 p2
  cases p1 with
  | nil => exact ⟨_, rfl⟩
  | cons a l => exact ⟨_, rfl⟩

/-- C2: the claim fails on the code twice over.  `adjacency_matrix` computes
`right = k` instead of `k + 1`, so an element's computed neighbor set
contains the element itself and omits its right-hand permutation neighbor:
for parents `[0,1,2]`, `[0,1,2]` the set for element 1 is `{0, 1}` — it
contains 1 itself and not the permutation-neighbors `{0, 2}`.  And
`recombine` never runs the greedy loop at all: it reads the unbound name
`neighbors` and raises NameError. -/
theorem ero_adjacency_not_neighbor_sets :
    Levis.adjacency_matrix [0, 1, 2] [0, 1, 2] 1 = {0, 1} ∧
    1 ∈ Levis.adjacency_matrix [0, 1, 2] [0, 1, 2] 1 ∧
    2 ∉ Levis.adjacency_matrix [0, 1, 2] [0, 1, 2] 1 ∧
    Levis.recombine [0, 1, 2] [2, 1, 0] = Except.error Levis.eroNameError :=
  ⟨by decide, by decide, by decide, rfl⟩

/-- C3: the source defines `ElitistGA.fitness` twice.  The `selection.py`
variant (first-hit scan with `break`, insertion slice `elites[pos:]`,
truncation to `num_elites`) satisfies the claim and reproduces the example:
scores `[50, 100, 75, 60, 80]` with `num_elites = 4` leave
`[100, 80, 75, 60]`.  The `behavior.py` variant violates it: its scan keeps
the *last* qualifying index and its insertion slice `elites[pos:-1]` drops
the tail entry even below capacity, so the same scores leave the unsorted,
shorter set `[100, 75, 80]`. -/
theorem elitist_insert_example_two_variants :
    (Levis.feedScores (Levis.elitistFitnessSel 4) [50, 100, 75, 60, 80]).map
      Prod.fst = [100, 80, 75, 60] ∧
    (Levis.feedScores (Levis.elitistFitnessBeh 4) [50, 100, 75, 60, 80]).map
      Prod.fst = [100, 75, 80] :=
  ⟨by decide, by decide⟩

/-- C4: `ProportionateGA.select` draws one uniform number `u` and returns
the first entry of the scored cache (which `proportion_population` builds
in rank order) whose cumulative share exceeds `u`; when no entry's share
exceeds `u` it raises the fatal fitness-function exception without
retrying, and leaves the scored cache unchanged.  When every score is
zero, `proportion_population` produces an empty scored cache, so every
subsequent `select` raises. -/
theorem proportionate_select_contract :
    (∀ (scored : List (Nat × ℚ × ℚ)) (u : ℚ) (i : Nat) (hi : i < scored.length),
       u < (scored.get ⟨i, hi⟩).2.2 →
       (∀ (j : Nat) (hj : j < i), (scored.get ⟨j, lt_trans hj hi⟩).2.2 ≤ u) →
       Levis.select scored u = Except.ok (scored.get ⟨i, hi⟩).1) ∧
    (∀ (scored : List (Nat × ℚ × ℚ)) (u : ℚ), (∀ t ∈ scored, t.2.2 ≤ u) →
       Levis.select scored u = Except.error Levis.selectError ∧
       (Levis.selectS scored u).2 = scored) ∧
    (∀ (ranked : List (Nat × ℚ)) (u : ℚ), (∀ t ∈ ranked, t.2 = 0) →
       Levis.proportion_population ranked = [] ∧
       Levis.select (Levis.proportion_population ranked) u =
         Except.error Levis.selectError) := by
  refine ⟨Levis.select_first, ?_, ?_⟩
  · intro scored u h
    exact ⟨Levis.select_none scored u h, rfl⟩
  · intro ranked u h
    have hempty := Levis.proportion_all_zero ranked h
    refine ⟨hempty, ?_⟩
    rw [hempty]
    exact Levis.select_none [] u (by intro t ht; exact absurd ht (List.not_mem_nil t))

/-- Witness for C4 at concrete inputs: with shares `2/3` then `1`, the draw
`u = 1/2` selects the first chromosome; with a single entry of share `2/3`
and `u = 1` nothing qualifies and select raises; with an all-zero scored
population the cache is empty. -/
theorem proportionate_select_contract_witness :
    Levis.select [(7, 2, 2/3), (9, 1, 1)] (1/2) = Except.ok 7 ∧
    Levis.select [(7, 2, 2/3)] 1 = Except.error Levis.selectError ∧
    Levis.proportion_population [(3, 0)] = [] := by
  have h1 := proportionate_select_contract.1 [(7, 2, 2/3), (9, 1, 1)] (1/2) 0
    (by norm_num) (by norm_num) (fun j hj => absurd hj (Nat.not_lt_zero j))
  have h2 := (proportionate_select_contract.2.1 [(7, 2, 2/3)] 1
    (by intro t ht; rw [List.mem_singleton] at ht; subst ht; norm_num)).1
  have h3 := (proportionate_select_contract.2.2 [(3, 0)] 0
    (by intro t ht; rw [List.mem_singleton] at ht; subst ht; rfl)).1
  exact ⟨h1, h2, h3⟩

/-- C5: the claim fails on the code.  In
`ScalingProportionateGA.proportion_population` the denominator `shares` is
the sum of the scaled values, but the numerator is the *raw* score
(`share = tupl[1] / shares`), not `score - worst`: for ranked scores
`[3, 1]` the code records cumulative tallies `[3/2, 2]` — overshooting the
total weight 1 — where the claimed scaled computation gives `[1, 1]`. -/
theorem scaling_divides_raw_by_scaled_sum :
    Levis.proportion_population_scaling [(0, 3), (1, 1)] =
      [(0, 3, 3/2), (1, 1, 2)] ∧
    Levis.scaling_shares_spec [(0, 3), (1, 1)] = [(0, 3, 1), (1, 1, 1)] ∧
    Levis.proportion_population_scaling [(0, 3), (1, 1)] ≠
      Levis.scaling_shares_spec [(0, 3), (1, 1)] := by
  refine ⟨?_, ?_, ?_⟩
  · simp [Levis.proportion_population_scaling]
    norm_num
  · simp [Levis.scaling_shares_spec]
    norm_num
  · simp [Levis.proportion_population_scaling, Levis.scaling_shares_spec]
    norm_num

/-- C6: the stop-when-slow policy with threshold `1/20` and lookback 5, with
the iteration count still below `max_iterations`: the history
`[10,13,15,16,16,16,16,16]` finishes (relative gain over the window is 0),
the history `[10,13,15,17,18,18,19]` does not (gain `4/15` exceeds the
threshold). -/
theorem finish_when_slow_examples (iteration max_iterations : Nat)
    (h : iteration < max_iterations) :
    Levis.is_finished_slow (1/20) 5 [10, 13, 15, 16, 16, 16, 16, 16]
      iteration max_iterations = true ∧
    Levis.is_finished_slow (1/20) 5 [10, 13, 15, 17, 18, 18, 19]
      iteration max_iterations = false := by
  have hx : decide (iteration ≥ max_iterations) = false := by
    simp [Nat.not_le.mpr h]
  constructor
  · simp only [Levis.is_finished_slow]
    norm_num
  · simp only [Levis.is_finished_slow]
    simp only [hx]
    norm_num

/-- Witness for C6 at iteration 0 of a 50-iteration run. -/
theorem finish_when_slow_examples_witness :
    Levis.is_finished_slow (1/20) 5 [10, 13, 15, 16, 16, 16, 16, 16] 0 50 = true ∧
    Levis.is_finished_slow (1/20) 5 [10, 13, 15, 17, 18, 18, 19] 0 50 = false :=
  finish_when_slow_examples 0 50 (by omega)

/-- C7: with `num_elites ≤ population_size`, the elite chromosomes are
injected unchanged (in order, before any draw) at the front of the next
generation, they count toward the size target, and the `generate` loop
appends exactly one chromosome per draw only while the next generation is
short of `population_size` — so the installed population has length exactly
`population_size`, and one solve step installs exactly this list.  The last
conjunct records that each draw's branch yields one of the three candidate
chromosomes. -/
theorem population_size_invariant (population_size : Nat)
    (elites : List (ℚ × Nat)) (child : Nat → Nat)
    (h : elites.length ≤ population_size) :
    (Levis.nextPopulation population_size elites child).length =
      population_size ∧
    (Levis.nextPopulation population_size elites child).take elites.length =
      elites.map (fun e => e.2) ∧
    (∀ s : Levis.GAState, s.next_generation = [] →
      (Levis.solveStep population_size elites child s).population =
        some (Levis.nextPopulation population_size elites child)) ∧
    (∀ cp mp t : ℚ, ∀ a b d : Nat,
      Levis.generateChild cp mp t a b d = a ∨
      Levis.generateChild cp mp t a b d = b ∨
      Levis.generateChild cp mp t a b d = d) := by
  have hlen : (elites.map (fun e => e.2)).length = elites.length :=
    List.length_map elites (fun e => e.2)
  refine ⟨?_, ?_, ?_, ?_⟩
  · unfold Levis.nextPopulation
    rw [Levis.pre_generate_elitist_nil]
    exact Levis.generate_length population_size child _ _ rfl (by omega)
  · unfold Levis.nextPopulation
    rw [Levis.pre_generate_elitist_nil]
    obtain ⟨ext, hext⟩ := Levis.generate_extends population_size child _
      (elites.map (fun e => e.2)) rfl
    rw [hext, ← hlen, List.take_left]
  · intro s hs
    unfold Levis.solveStep
    rw [hs]
    rfl
  · intro cp mp t a b d
    unfold Levis.generateChild
    by_cases h1 : t < cp
    · left; rw [if_pos h1]
    · rw [if_neg h1]
      by_cases h2 : t < cp + mp
      · right; left; rw [if_pos h2]
      · right; right; rw [if_neg h2]

/-- Witness for C7: three elites in a population of five. -/
theorem population_size_invariant_witness :
    (Levis.nextPopulation 5 [(9, 10), (8, 11), (7, 12)] (fun k => 100 + k)).length = 5 ∧
    (Levis.nextPopulation 5 [(9, 10), (8, 11), (7, 12)] (fun k => 100 + k)).take 3 =
      [10, 11, 12] := by
  have h := population_size_invariant 5 [(9, 10), (8, 11), (7, 12)]
    (fun k => 100 + k) (by simp)
  exact ⟨h.1, h.2.1⟩

/-- C8: the claim fails on the code.  `crossover.uniform_bin` makes no
random draw at all: the loop or-s the mask bit from the current `parent1`
into `child1` and then swaps the parents, so bits alternate between the
parents deterministically with the locus.  For `parent1 = 15`,
`parent2 = 0`, `bits = 4` the result is always `[5, 10]` (child1 takes the
even loci of parent1, child2 the odd ones); with the spec's test parents
`992`, `31`, width 10, always `[330, 693]`. -/
theorem uniform_bin_deterministic_alternation :
    Levis.uniform_bin 15 0 4 = [5, 10] ∧
    Levis.uniform_bin 992 31 10 = [330, 693] :=
  ⟨by decide, by decide⟩

/-- C10: after `__init__`, `max_iterations` is at least 1 (a configured
value `≤ 0` is replaced by 1, the default is 50), the default
`is_finished` is false at iteration 0, and neither seeding nor a solve
step ever changes `max_iterations` — so the loop body runs at least
once. -/
theorem max_iterations_at_least_one_invariant :
    (∀ configured : Option Int, 1 ≤ Levis.initMaxIterations configured) ∧
    (∀ configured : Option Int,
      Levis.is_finished (Levis.initState configured).iteration
        (Levis.initState configured).max_iterations = false) ∧
    (∀ (create : Nat → Nat) (population_size : Nat) (s : Levis.GAState),
      (Levis.seedState create population_size s).max_iterations =
        s.max_iterations) ∧
    (∀ (population_size : Nat) (elites : List (ℚ × Nat)) (child : Nat → Nat)
       (s : Levis.GAState),
      (Levis.solveStep population_size elites child s).max_iterations =
        s.max_iterations) := by
  have h1 : ∀ configured : Option Int, 1 ≤ Levis.initMaxIterations configured := by
    intro configured
    unfold Levis.initMaxIterations
    dsimp only
    split
    · omega
    · omega
  refine ⟨h1, ?_, ?_, ?_⟩
  · intro configured
    have := h1 configured
    simp only [Levis.initState, Levis.is_finished]
    simp only [Nat.cast_zero, ge_iff_le, decide_eq_false_iff_not, not_le]
    omega
  · intro create population_size s
    unfold Levis.seedState
    cases s.population <;> rfl
  · intro population_size elites child s
    rfl
